import Mathlib

/-!
A verification development for the Gantt-chart task manager (`app.py`).

The program keeps a session table of task rows (`Task`, `Start`, `Duration`,
`Resource`), derives a `Finish` column (`add_finish_column`), computes summary
statistics (`calculate_stats`), and exports the derived table as CSV
(`convert_df_to_csv`, encoded `utf-8-sig`) and as a one-sheet spreadsheet
(`convert_df_to_excel`).

Modelling conventions:
* a pandas `Timestamp` normalized to midnight is a calendar `Date` triple;
  adding a `Timedelta` of whole days steps the calendar day by day;
* machine integers are `Int`, numeric cell values are `Rat`;
* `DataFrame` column values are per-row record fields; the store's column
  order `Task, Start, Resource, Duration` is the seed dataset's order (the
  spec records the external seed's columns as `Task, Start, Resource,
  Duration`, and no operation in `app.py` reorders columns), so the derived
  table's order is `Task, Start, Resource, Duration, Finish`;
* fallible conversions (`astype(int)`) return `Except String`.
-/

namespace GanttApp

/-- Calendar date (year, month, day).  Models a pandas `Timestamp` normalized
to midnight, which is how `Start` and `Finish` are held after
`pd.to_datetime` / the date arithmetic in `add_finish_column`. -/
structure Date where
  y : Nat
  m : Nat
  d : Nat
  deriving DecidableEq, Repr

/-- Gregorian leap-year rule. -/
def isLeap (y : Nat) : Bool :=
  y % 4 = 0 && (!(y % 100 = 0) || y % 400 = 0)

/-- Number of days of month `m` in year `y`. -/
def daysInMonth (y m : Nat) : Nat :=
  if m = 2 then (if isLeap y then 29 else 28)
  else if m = 4 ∨ m = 6 ∨ m = 9 ∨ m = 11 then 30
  else 31

/-- The next calendar day. -/
def nextDay (dt : Date) : Date :=
  if dt.d < daysInMonth dt.y dt.m then ⟨dt.y, dt.m, dt.d + 1⟩
  else if dt.m < 12 then ⟨dt.y, dt.m + 1, 1⟩
  else ⟨dt.y + 1, 1, 1⟩

/-- The previous calendar day. -/
def prevDay (dt : Date) : Date :=
  if 1 < dt.d then ⟨dt.y, dt.m, dt.d - 1⟩
  else if 1 < dt.m then ⟨dt.y, dt.m - 1, daysInMonth dt.y (dt.m - 1)⟩
  else ⟨dt.y - 1, 12, 31⟩

/-- Shift a date by `n` whole days; models `Timestamp + pd.to_timedelta(n, unit="D")`. -/
def addDays (dt : Date) (n : Int) : Date :=
  if 0 ≤ n then nextDay^[n.toNat] dt else prevDay^[(-n).toNat] dt

/-- Lexicographic (chronological) order on dates; models `Timestamp` comparison. -/
def dateLE (a b : Date) : Prop :=
  a.y < b.y ∨ (a.y = b.y ∧ (a.m < b.m ∨ (a.m = b.m ∧ a.d ≤ b.d)))

/-- Strict chronological order on dates. -/
def dateLT (a b : Date) : Prop :=
  a.y < b.y ∨ (a.y = b.y ∧ (a.m < b.m ∨ (a.m = b.m ∧ a.d < b.d)))

instance (a b : Date) : Decidable (dateLE a b) := by unfold dateLE; infer_instance

instance (a b : Date) : Decidable (dateLT a b) := by unfold dateLT; infer_instance

/-- A date whose month and day exist in the Gregorian calendar.  Every pandas
`Timestamp` occurring in the program denotes such a date. -/
def ValidDate (dt : Date) : Prop :=
  1 ≤ dt.m ∧ dt.m ≤ 12 ∧ 1 ≤ dt.d ∧ dt.d ≤ daysInMonth dt.y dt.m

instance (dt : Date) : Decidable (ValidDate dt) := by unfold ValidDate; infer_instance

/-- A dynamically typed `Duration` cell: a numeric value (`Rat`) or an
arbitrary string, as an object-dtype pandas column can hold either. -/
inductive CellVal where
  | num (q : Rat)
  | str (s : String)
  deriving DecidableEq, Repr

/-- A row of the session Row Store (`st.session_state.df`): columns
`Task, Start, Resource, Duration` in the seed dataset's order, with the
well-typed values the edit surface guarantees. -/
structure StoreRow where
  task : String
  start : Date
  duration : Int
  resource : String
  deriving DecidableEq, Repr

/-- A row of a raw table as `add_finish_column` receives it: the `Duration`
cell may be any dynamically typed value. -/
structure RawRow where
  task : String
  start : Date
  duration : CellVal
  resource : String
  deriving DecidableEq, Repr

/-- A row of the derived table produced by `add_finish_column`: `Duration`
coerced to `int`, and the computed `Finish` column appended. -/
structure Row where
  task : String
  start : Date
  duration : Int
  resource : String
  finish : Date
  deriving DecidableEq, Repr

/-- Truncation of a rational toward zero; models the C-style cast a numpy
`astype(int)` performs on a float value. -/
def ratTrunc (q : Rat) : Int :=
  if 0 ≤ q then ⌊q⌋ else ⌈q⌉

/-- Whitespace characters Python's `int(s)` strips from both ends of its
argument (ASCII; Python also strips other Unicode whitespace, which does not
occur in this program's data). -/
def isPySpace (c : Char) : Bool :=
  decide (c = ' ' ∨ c = '\t' ∨ c = '\n' ∨ c = '\r' ∨ c = '\x0b' ∨ c = '\x0c')

/-- Continue a Python integer literal after its first digit: further digits,
with single underscores allowed only between digits (`5_0` is `50`, while
`5_`, `5__0` are rejected). -/
def pyDigitsAux : Nat → List Char → Option Nat
  | acc, [] => some acc
  | acc, '_' :: c :: rest =>
    if c.isDigit then pyDigitsAux (acc * 10 + (c.toNat - 48)) rest else none
  | acc, c :: rest =>
    if c.isDigit then pyDigitsAux (acc * 10 + (c.toNat - 48)) rest else none

/-- A Python integer-literal digit sequence: nonempty, starting and ending
with a digit, underscores single and between digits. -/
def pyDigits? : List Char → Option Nat
  | [] => none
  | c :: rest => if c.isDigit then pyDigitsAux (c.toNat - 48) rest else none

/-- The strings Python's `int(s)` converts (hence `astype(int)` on an
object-dtype cell): surrounding whitespace stripped, an optional `+` or `-`
sign, then digits with single underscores allowed between digits (ASCII
digits; Python also accepts other Unicode decimal digits, which do not occur
in this program's data).  `none` models the `ValueError` raised on any other
string. -/
def strToInt? (s : String) : Option Int :=
  match ((s.data.dropWhile isPySpace).reverse.dropWhile isPySpace).reverse with
  | '+' :: rest => (pyDigits? rest).map fun n => (n : Int)
  | '-' :: rest => (pyDigits? rest).map fun n => -(n : Int)
  | l => (pyDigits? l).map fun n => (n : Int)

/-- Coerce one `Duration` cell to `int`, as `df["Duration"].astype(int)` does
per cell: a numeric value is truncated toward zero (the C cast semantics of
the float-to-int64 conversion, meaningful for values whose truncation fits in
int64 — outside that range the numpy cast is platform-dependent and the
theorems below assert nothing), and a string is converted exactly when
Python's `int(s)` accepts it, anything else raising. -/
def astypeInt : CellVal → Except String Int
  | .num q => .ok (ratTrunc q)
  | .str s =>
    match strToInt? s with
    | some n => .ok n
    | none => .error "invalid literal for int"

/-- The derive step of `app.py`:

```python
def add_finish_column(df):
    df = df.copy()
    df["Start"] = pd.to_datetime(df["Start"])
    df["Duration"] = df["Duration"].astype(int)
    df["Finish"] = df["Start"] + pd.to_timedelta(df["Duration"], unit="D")
    return df
```

`Start` values are already dates (`pd.to_datetime` is the identity on them),
`Duration` is coerced per cell by `astypeInt` (the whole step fails if any
cell fails), and `Finish` is the start shifted by the coerced duration. -/
def add_finish_column : List RawRow → Except String (List Row)
  | [] => .ok []
  | r :: rs =>
    match astypeInt r.duration with
    | .error e => .error e
    | .ok d =>
      match add_finish_column rs with
      | .error e => .error e
      | .ok out => .ok (⟨r.task, r.start, d, r.resource, addDays r.start d⟩ :: out)

/-- Number of distinct values of a column; models `Series.nunique()`. -/
def nunique (l : List String) : Nat :=
  l.toFinset.card

/-- Leftmost minimum of a list of dates starting from `a`. -/
def minDfold (a : Date) : List Date → Date
  | [] => a
  | d :: ds => minDfold (if dateLE a d then a else d) ds

/-- Leftmost maximum of a list of dates starting from `a`. -/
def maxDfold (a : Date) : List Date → Date
  | [] => a
  | d :: ds => maxDfold (if dateLE d a then a else d) ds

/-- Minimum of a date column; `none` models the `NaT` a pandas `Series.min()`
returns on an empty column. -/
def minD? : List Date → Option Date
  | [] => none
  | d :: ds => some (minDfold d ds)

/-- Maximum of a date column; `none` models `NaT` on an empty column. -/
def maxD? : List Date → Option Date
  | [] => none
  | d :: ds => some (maxDfold d ds)

/-- The statistics step of `app.py`:

```python
def calculate_stats(df):
    total_tasks = len(df)
    total_days = df["Duration"].sum()
    resources = df["Resource"].nunique()
    earliest = df["Start"].min()
    latest = df["Finish"].max()
    return total_tasks, total_days, resources, earliest, latest
```

It receives the derived table (`df_with_finish`). -/
def calculate_stats (df : List Row) : Nat × Int × Nat × Option Date × Option Date :=
  (df.length,
   (df.map Row.duration).sum,
   nunique (df.map Row.resource),
   minD? (df.map Row.start),
   maxD? (df.map Row.finish))

/-- View a well-typed store row as a raw table row. -/
def rawOfStore (r : StoreRow) : RawRow :=
  ⟨r.task, r.start, .num (r.duration : Rat), r.resource⟩

/-- The derived row of a store row. -/
def deriveRow (r : StoreRow) : Row :=
  ⟨r.task, r.start, r.duration, r.resource, addDays r.start r.duration⟩

/-- The derived table of a store table. -/
def deriveStore (store : List StoreRow) : List Row :=
  store.map deriveRow

/-- The two-row scenario from the spec's testable properties. -/
def scenarioStore : List StoreRow :=
  [⟨"Design", ⟨2024, 1, 1⟩, 5, "A"⟩, ⟨"Build", ⟨2024, 1, 6⟩, 10, "B"⟩]

/-- Map a decimal digit to its character. -/
def digitToChar (d : Nat) : Char :=
  match d with
  | 0 => '0' | 1 => '1' | 2 => '2' | 3 => '3' | 4 => '4'
  | 5 => '5' | 6 => '6' | 7 => '7' | 8 => '8' | _ => '9'

/-- Map a decimal digit character to its value. -/
def charToDigit (c : Char) : Nat :=
  match c with
  | '0' => 0 | '1' => 1 | '2' => 2 | '3' => 3 | '4' => 4
  | '5' => 5 | '6' => 6 | '7' => 7 | '8' => 8 | _ => 9

/-- Big-endian decimal digits of `n` (empty for `0`); `fuel` bounds the
recursion depth. -/
def renderNatAux : Nat → Nat → List Char
  | 0, _ => []
  | fuel + 1, n =>
    if n = 0 then [] else renderNatAux fuel (n / 10) ++ [digitToChar (n % 10)]

/-- Decimal rendering of a natural number. -/
def renderNat (n : Nat) : List Char :=
  if n = 0 then ['0'] else renderNatAux n n

/-- Value of a decimal digit string. -/
def parseNatChars (cs : List Char) : Nat :=
  cs.foldl (fun a c => a * 10 + charToDigit c) 0

/-- Zero-pad a digit string on the left to width `k`. -/
def padTo (k : Nat) (cs : List Char) : List Char :=
  List.replicate (k - cs.length) '0' ++ cs

/-- Render a date in `YYYY-MM-DD` form, as pandas renders a midnight
`Timestamp` column in `to_csv`. -/
def renderDate (dt : Date) : List Char :=
  padTo 4 (renderNat dt.y) ++ '-' :: (padTo 2 (renderNat dt.m) ++ '-' :: padTo 2 (renderNat dt.d))

/-- Decimal rendering of an integer. -/
def renderIntChars (n : Int) : List Char :=
  if n < 0 then '-' :: renderNat n.natAbs else renderNat n.natAbs

/-- Split a character list at each `'-'`. -/
def splitDash : List Char → List (List Char)
  | [] => [[]]
  | c :: rest =>
    if c = '-' then [] :: splitDash rest
    else
      match splitDash rest with
      | [] => [[c]]
      | g :: gs => (c :: g) :: gs

/-- Parse a `YYYY-MM-DD` string back into a date (lenient re-ingestion, as a
date parser applied to the exported text). -/
def parseDateChars (cs : List Char) : Option Date :=
  match splitDash cs with
  | [a, b, c] => some ⟨parseNatChars a, parseNatChars b, parseNatChars c⟩
  | _ => none

/-- Parse an optionally signed decimal string back into an integer. -/
def parseIntChars : List Char → Int
  | '-' :: rest => -(parseNatChars rest : Int)
  | cs => (parseNatChars cs : Int)

/-- Characters that force a CSV field to be quoted (delimiter, quote char,
line-break characters), as Python's `csv` writer does under `QUOTE_MINIMAL`. -/
def isSpecialC (c : Char) : Bool :=
  decide (c = ',' ∨ c = '"' ∨ c = '\n' ∨ c = '\r')

/-- Double every quote character, as the CSV writer escapes quotes inside a
quoted field. -/
def doubleQuotes : List Char → List Char
  | [] => []
  | c :: rest =>
    if c = '"' then '"' :: '"' :: doubleQuotes rest else c :: doubleQuotes rest

/-- Serialize one CSV field: quoted with doubled inner quotes when it holds a
special character, verbatim otherwise. -/
def escapeField (f : List Char) : List Char :=
  if f.any isSpecialC then '"' :: (doubleQuotes f ++ ['"']) else f

/-- Serialize one CSV record: escaped fields joined with commas. -/
def serializeRecord : List (List Char) → List Char
  | [] => []
  | [f] => escapeField f
  | f :: fs => escapeField f ++ ',' :: serializeRecord fs

/-- Serialize a list of records, each terminated by a newline, as
`DataFrame.to_csv` does (Unix line terminator). -/
def joinRecords : List (List (List Char)) → List Char
  | [] => []
  | r :: rs => serializeRecord r ++ '\n' :: joinRecords rs

/-- The header record: the derived table's column names in the stored column
order `Task, Start, Resource, Duration` with the appended `Finish`. -/
def headerRecord : List (List Char) :=
  ["Task".data, "Start".data, "Resource".data, "Duration".data, "Finish".data]

/-- The CSV record of one derived row, fields in the table's column order. -/
def rowRecord (r : Row) : List (List Char) :=
  [r.task.data, renderDate r.start, r.resource.data, renderIntChars r.duration,
   renderDate r.finish]

/-- The text produced by `df.to_csv(index=False)` on the derived table:
header line followed by one line per row. -/
def payloadChars (rows : List Row) : List Char :=
  joinRecords (headerRecord :: rows.map rowRecord)

/-- The decoded text of the exported file: `utf-8-sig` encoding prepends a
byte-order marker, i.e. the bytes are the UTF-8 encoding of the payload
prefixed with U+FEFF. -/
def csvChars (rows : List Row) : List Char :=
  '\uFEFF' :: payloadChars rows

/-- Standard UTF-8 encoding of one character. -/
def utf8EncodeChar (c : Char) : List Nat :=
  let n := c.toNat
  if n < 128 then [n]
  else if n < 2048 then [192 + n / 64, 128 + n % 64]
  else if n < 65536 then [224 + n / 4096, 128 + n / 64 % 64, 128 + n % 64]
  else [240 + n / 262144, 128 + n / 4096 % 64, 128 + n / 64 % 64, 128 + n % 64]

/-- UTF-8 encoding of a character list as a byte sequence. -/
def utf8Encode (cs : List Char) : List Nat :=
  (cs.map utf8EncodeChar).flatten

/-- The CSV export of `app.py`:

```python
def convert_df_to_csv(df):
    return df.to_csv(index=False).encode('utf-8-sig')
```

It returns the bytes of the derived table's CSV text in `utf-8-sig`
encoding (UTF-8 with a byte-order-marker prefix). -/
def convert_df_to_csv (rows : List Row) : List Nat :=
  utf8Encode (csvChars rows)

/-- The spreadsheet export of `app.py` (`convert_df_to_excel`): a single
sheet named `タスク一覧` holding the header row and the rendered data rows.
The binary container format is outside the model; the sheet content is. -/
def convert_df_to_excel (rows : List Row) : String × List (List String) :=
  ("タスク一覧",
   (headerRecord.map fun f => String.mk f) ::
     rows.map fun r => (rowRecord r).map fun f => String.mk f)

/-- Scan an unquoted CSV field: the run of characters before the next
delimiter (`,` or newline); also returns the unconsumed rest. -/
def scanField : List Char → List Char × List Char
  | [] => ([], [])
  | c :: rest =>
    if c = ',' ∨ c = '\n' then ([], c :: rest)
    else
      let p := scanField rest
      (c :: p.1, p.2)

mutual

/-- Scan a quoted CSV field after its opening quote: a doubled quote stands
for one quote character, a single quote closes the field. -/
def scanQuoted : List Char → List Char × List Char
  | [] => ([], [])
  | c :: rest =>
    if c = '"' then scanQuotedEnd rest
    else
      let p := scanQuoted rest
      (c :: p.1, p.2)

/-- Continuation after a quote character inside a quoted field: a second
quote is a literal quote, anything else ends the field. -/
def scanQuotedEnd : List Char → List Char × List Char
  | [] => ([], [])
  | c :: rest =>
    if c = '"' then
      let p := scanQuoted rest
      ('"' :: p.1, p.2)
    else ([], c :: rest)

end

/-- Scan one CSV field, quoted or unquoted. -/
def parseFieldStep (input : List Char) : List Char × List Char :=
  if input.head? = some '"' then scanQuoted input.tail else scanField input

/-- Parse one CSV record: fields separated by commas, ended by a newline or
the end of input; `fuel` bounds the number of fields. -/
def parseRecordAux : Nat → List Char → List (List Char) × List Char
  | 0, input => ([], input)
  | fuel + 1, input =>
    let p := parseFieldStep input
    if p.2.head? = some ',' then
      let q := parseRecordAux fuel p.2.tail
      (p.1 :: q.1, q.2)
    else if p.2.head? = some '\n' then ([p.1], p.2.tail)
    else ([p.1], [])

/-- Parse a sequence of CSV records until the input is exhausted. -/
def parseRecordsAux : Nat → List Char → List (List (List Char))
  | 0, _ => []
  | fuel + 1, input =>
    if input.isEmpty then []
    else
      let p := parseRecordAux input.length input
      p.1 :: parseRecordsAux fuel p.2

/-- Drop a leading byte-order marker, as a `utf-8-sig`-aware reader does. -/
def stripBOM : List Char → List Char
  | '\uFEFF' :: rest => rest
  | cs => cs

/-- Re-ingest one parsed CSV record as a store row: `Task, Start, Resource,
Duration` from the first four columns (`Finish` is not re-ingested). -/
def recoverStoreRow : List (List Char) → Option StoreRow
  | [t, s, res, dur, _fin] =>
    match parseDateChars s with
    | some sd => some ⟨String.mk t, sd, parseIntChars dur, String.mk res⟩
    | none => none
  | _ => none

/-- Re-ingest a list of parsed CSV records as store rows. -/
def recoverRows : List (List (List Char)) → Option (List StoreRow)
  | [] => some []
  | r :: rs =>
    match recoverStoreRow r, recoverRows rs with
    | some a, some l => some (a :: l)
    | _, _ => none

/-- Parse the exported CSV text back into store rows: strip the byte-order
marker, tokenize the records, drop the header record, and re-ingest each data
record. -/
def parseCsvRows (cs : List Char) : Option (List StoreRow) :=
  match parseRecordsAux (stripBOM cs).length (stripBOM cs) with
  | [] => none
  | _ :: recs => recoverRows recs

/-- A row of a dynamically typed dataframe held in session state: the store's
four columns plus an optional `Finish` column. -/
structure DynRow where
  task : String
  start : Date
  duration : CellVal
  resource : String
  finish : Option Date
  deriving DecidableEq, Repr

/-- A dataframe value on the heap. -/
abbrev Table := List DynRow

/-- The heap of dataframe objects: Python-level references are indices. -/
abbrev Heap := List Table

/-- Read the dataframe a reference denotes. -/
def readT (h : Heap) (r : Nat) : Table :=
  h.getD r []

/-- Overwrite the dataframe a reference denotes (in-place mutation). -/
def writeT (h : Heap) (r : Nat) (t : Table) : Heap :=
  h.set r t

/-- `df["Start"] = pd.to_datetime(df["Start"])`: the identity on columns that
already hold dates. -/
def toDatetimeCol (t : Table) : Table :=
  t.map fun row => { row with start := row.start }

/-- `df["Duration"].astype(int)` over a whole column. -/
def astypeCol : Table → Except String (List Int)
  | [] => .ok []
  | row :: rest =>
    match astypeInt row.duration, astypeCol rest with
    | .ok d, .ok ds => .ok (d :: ds)
    | .error e, _ => .error e
    | _, .error e => .error e

/-- Assign the coerced integers to the `Duration` column. -/
def setDurCol (t : Table) (ds : List Int) : Table :=
  List.zipWith (fun row d => { row with duration := CellVal.num (d : Rat) }) t ds

/-- Assign `Start + to_timedelta(Duration)` to the `Finish` column, `ds`
being the integer values the `Duration` column holds at that point. -/
def setFinishCol (t : Table) (ds : List Int) : Table :=
  List.zipWith (fun row d => { row with finish := some (addDays row.start d) }) t ds

/-- The imperative body of `add_finish_column` against the heap: copy the
argument dataframe, then mutate the copy column by column.  Returns the
resulting heap together with the reference to the copy, or the heap as left
behind when the `astype(int)` coercion raises. -/
def add_finish_column_imp (h : Heap) (r : Nat) : Heap × Except String Nat :=
  let c := h.length
  let h1 := h ++ [readT h r]
  let h2 := writeT h1 c (toDatetimeCol (readT h1 c))
  match astypeCol (readT h2 c) with
  | .error e => (h2, .error e)
  | .ok ds =>
    let h3 := writeT h2 c (setDurCol (readT h2 c) ds)
    let h4 := writeT h3 c (setFinishCol (readT h3 c) ds)
    (h4, .ok c)

/-- Read one dynamically typed cell as the integer a typed `Duration` column
holds. -/
def cellIntQ : CellVal → Option Int
  | .num q => if q.den = 1 then some q.num else none
  | .str _ => none

/-- Read a heap dataframe as a fully typed derived table, when it is one. -/
def tableTyped? : Table → Option (List Row)
  | [] => some []
  | row :: rest =>
    match row.finish, cellIntQ row.duration, tableTyped? rest with
    | some f, some d, some rs => some (⟨row.task, row.start, d, row.resource, f⟩ :: rs)
    | _, _, _ => none

/-- `convert_df_to_csv` against the heap: it only reads its argument. -/
def convert_df_to_csv_imp (h : Heap) (r : Nat) : Heap × Option (List Nat) :=
  (h, (tableTyped? (readT h r)).map convert_df_to_csv)

/-- `convert_df_to_excel` against the heap: it only reads its argument. -/
def convert_df_to_excel_imp (h : Heap) (r : Nat) :
    Heap × Option (String × List (List String)) :=
  (h, (tableTyped? (readT h r)).map convert_df_to_excel)

/-- Concrete raw table used to instantiate hypotheses of the general
theorems. -/
def demoRaw : List RawRow :=
  [⟨"T", ⟨2024, 1, 31⟩, .num 5, "A"⟩]

/-- The derived row of `demoRaw`. -/
def demoRow : Row :=
  ⟨"T", ⟨2024, 1, 31⟩, 5, "A", ⟨2024, 2, 5⟩⟩

/-- Concrete store row at a leap-year month boundary. -/
def demoStoreRow : StoreRow :=
  ⟨"T", ⟨2024, 2, 28⟩, 2, "A"⟩

/-- Concrete heap holding one single-row dataframe. -/
def demoHeap : Heap :=
  [[⟨"T", ⟨2024, 1, 1⟩, .num 1, "A", none⟩]]

/-- Concrete store row whose resource does not occur in `scenarioStore`. -/
def demoNewRow : StoreRow :=
  ⟨"QA", ⟨2024, 2, 1⟩, 3, "C"⟩

/-! Order lemmas for dates. -/

theorem dateLE_refl (a : Date) : dateLE a a := by
  unfold dateLE; omega

theorem dateLE_trans {a b c : Date} (h1 : dateLE a b) (h2 : dateLE b c) : dateLE a c := by
  unfold dateLE at *; omega

theorem dateLE_total (a b : Date) : dateLE a b ∨ dateLE b a := by
  unfold dateLE; omega

theorem dateLE_of_lt {a b : Date} (h : dateLT a b) : dateLE a b := by
  unfold dateLE dateLT at *; omega

theorem dateLT_of_lt_of_lt {a b c : Date} (h1 : dateLT a b) (h2 : dateLT b c) :
    dateLT a c := by
  unfold dateLT at *; omega

theorem daysInMonth_pos (y m : Nat) : 1 ≤ daysInMonth y m := by
  unfold daysInMonth
  split
  · split <;> omega
  · split <;> omega

theorem dateLT_nextDay (dt : Date) : dateLT dt (nextDay dt) := by
  unfold nextDay dateLT
  split
  · dsimp only
    omega
  · split <;> dsimp only <;> omega

theorem dateLT_nextDay_iter (dt : Date) (k : Nat) (hk : 1 ≤ k) :
    dateLT dt (nextDay^[k] dt) := by
  induction k with
  | zero => omega
  | succ k ih =>
    rw [Function.iterate_succ_apply']
    rcases Nat.eq_zero_or_pos k with hz | hp
    · subst hz; simpa using dateLT_nextDay dt
    · exact dateLT_of_lt_of_lt (ih hp) (dateLT_nextDay _)

theorem dateLT_addDays (dt : Date) (n : Int) (hn : 1 ≤ n) :
    dateLT dt (addDays dt n) := by
  unfold addDays
  rw [if_pos (by omega : (0:Int) ≤ n)]
  exact dateLT_nextDay_iter dt n.toNat (by omega)

/-! Decimal rendering and parsing. -/

theorem charToDigit_digitToChar (d : Nat) (h : d < 10) :
    charToDigit (digitToChar d) = d := by
  interval_cases d <;> rfl

theorem digitToChar_isDigit (d : Nat) : (digitToChar d).isDigit = true := by
  unfold digitToChar
  split <;> rfl

theorem isDigit_not_special {c : Char} (h : c.isDigit = true) : isSpecialC c = false := by
  rcases hc : isSpecialC c
  · rfl
  · exfalso
    simp only [isSpecialC, decide_eq_true_eq] at hc
    rcases hc with rfl | rfl | rfl | rfl <;> exact absurd h (by decide)

theorem isDigit_ne_dash {c : Char} (h : c.isDigit = true) : c ≠ '-' := by
  rintro rfl; exact absurd h (by decide)

theorem isDigit_ne_quote {c : Char} (h : c.isDigit = true) : c ≠ '"' := by
  rintro rfl; exact absurd h (by decide)

theorem parseNatChars_append_digit (xs : List Char) (c : Char) :
    parseNatChars (xs ++ [c]) = parseNatChars xs * 10 + charToDigit c := by
  unfold parseNatChars
  rw [List.foldl_append]
  rfl

theorem parse_renderNatAux (fuel : Nat) : ∀ n : Nat, n ≤ fuel →
    parseNatChars (renderNatAux fuel n) = n := by
  induction fuel with
  | zero =>
    intro n hn
    have : n = 0 := by omega
    subst this
    rfl
  | succ fuel ih =>
    intro n hn
    by_cases h0 : n = 0
    · subst h0; rfl
    · rw [renderNatAux, if_neg h0, parseNatChars_append_digit]
      have hdiv : n / 10 < n := Nat.div_lt_self (by omega) (by omega)
      rw [ih (n / 10) (by omega)]
      rw [charToDigit_digitToChar (n % 10) (by omega)]
      omega

theorem renderNatAux_digits (fuel : Nat) : ∀ n : Nat, ∀ c ∈ renderNatAux fuel n,
    c.isDigit = true := by
  induction fuel with
  | zero => intro n c hc; simp [renderNatAux] at hc
  | succ fuel ih =>
    intro n c hc
    by_cases h0 : n = 0
    · subst h0; simp [renderNatAux] at hc
    · rw [renderNatAux, if_neg h0] at hc
      rcases List.mem_append.1 hc with h | h
      · exact ih _ c h
      · simp at h; subst h; exact digitToChar_isDigit _

theorem parse_renderNat (n : Nat) : parseNatChars (renderNat n) = n := by
  unfold renderNat
  split
  · subst (by assumption : n = 0); rfl
  · exact parse_renderNatAux n n le_rfl

theorem renderNat_digits (n : Nat) : ∀ c ∈ renderNat n, c.isDigit = true := by
  unfold renderNat
  split
  · intro c hc; simp at hc; subst hc; rfl
  · exact renderNatAux_digits n n

theorem renderNat_ne_nil (n : Nat) : renderNat n ≠ [] := by
  unfold renderNat
  split
  · simp
  · rcases n with _ | k
    · simp_all
    · rw [renderNatAux, if_neg (by simp)]
      simp

theorem foldl_zeros (j : Nat) :
    List.foldl (fun a c => a * 10 + charToDigit c) 0 (List.replicate j '0') = 0 := by
  induction j with
  | zero => rfl
  | succ j ih => simpa [List.replicate_succ] using ih

theorem parse_padTo (k : Nat) (cs : List Char) :
    parseNatChars (padTo k cs) = parseNatChars cs := by
  unfold padTo parseNatChars
  rw [List.foldl_append, foldl_zeros]

theorem padTo_digits (k : Nat) (cs : List Char) (h : ∀ c ∈ cs, c.isDigit = true) :
    ∀ c ∈ padTo k cs, c.isDigit = true := by
  intro c hc
  rcases List.mem_append.1 hc with hz | hcs
  · have := List.eq_of_mem_replicate hz
    subst this; rfl
  · exact h c hcs

theorem splitDash_append (a rest : List Char) (h : ∀ c ∈ a, c ≠ '-') :
    splitDash (a ++ '-' :: rest) = a :: splitDash rest := by
  induction a with
  | nil => simp [splitDash]
  | cons c a ih =>
    have hc : c ≠ '-' := h c (List.mem_cons_self c a)
    rw [List.cons_append, splitDash, if_neg hc,
      ih (fun x hx => h x (List.mem_cons_of_mem c hx))]

theorem splitDash_nodash (a : List Char) (h : ∀ c ∈ a, c ≠ '-') :
    splitDash a = [a] := by
  induction a with
  | nil => rfl
  | cons c a ih =>
    have hc : c ≠ '-' := h c (List.mem_cons_self c a)
    rw [splitDash, if_neg hc, ih (fun x hx => h x (List.mem_cons_of_mem c hx))]

theorem parseDate_renderDate (dt : Date) : parseDateChars (renderDate dt) = some dt := by
  have hy : ∀ c ∈ padTo 4 (renderNat dt.y), c ≠ '-' :=
    fun c hc => isDigit_ne_dash (padTo_digits _ _ (renderNat_digits dt.y) c hc)
  have hm : ∀ c ∈ padTo 2 (renderNat dt.m), c ≠ '-' :=
    fun c hc => isDigit_ne_dash (padTo_digits _ _ (renderNat_digits dt.m) c hc)
  have hd : ∀ c ∈ padTo 2 (renderNat dt.d), c ≠ '-' :=
    fun c hc => isDigit_ne_dash (padTo_digits _ _ (renderNat_digits dt.d) c hc)
  unfold renderDate parseDateChars
  rw [splitDash_append _ _ hy, splitDash_append _ _ hm, splitDash_nodash _ hd]
  simp [parse_padTo, parse_renderNat]

theorem parseInt_renderInt (n : Int) : parseIntChars (renderIntChars n) = n := by
  unfold renderIntChars
  split
  · rw [show parseIntChars ('-' :: renderNat n.natAbs) = -(parseNatChars (renderNat n.natAbs) : Int)
      from rfl]
    rw [parse_renderNat]
    omega
  · obtain ⟨c, cs, hcons⟩ : ∃ c cs, renderNat n.natAbs = c :: cs := by
      rcases hr : renderNat n.natAbs with _ | ⟨c, cs⟩
      · exact absurd hr (renderNat_ne_nil _)
      · exact ⟨c, cs, rfl⟩
    have hdig : c.isDigit = true := renderNat_digits n.natAbs c (by rw [hcons]; simp)
    have hne : c ≠ '-' := isDigit_ne_dash hdig
    rw [hcons]
    unfold parseIntChars
    split
    · next heq => exact absurd (List.head_eq_of_cons_eq heq.symm) (Ne.symm hne)
    · rw [← hcons, parse_renderNat]; omega

/-! CSV serialization round-trip lemmas. -/

theorem scanField_stops (f rest : List Char) (hf : ∀ c ∈ f, isSpecialC c = false)
    (hr : rest.head? = none ∨ rest.head? = some ',' ∨ rest.head? = some '\n') :
    scanField (f ++ rest) = (f, rest) := by
  induction f with
  | nil =>
    rcases rest with _ | ⟨c, tl⟩
    · rfl
    · simp only [List.head?_cons, Option.some.injEq, reduceCtorEq, false_or] at hr
      rw [List.nil_append, scanField, if_pos hr]
  | cons c f ih =>
    have hc := hf c (List.mem_cons_self c f)
    have hnc : ¬(c = ',' ∨ c = '\n') := by
      simp only [isSpecialC, decide_eq_false_iff_not] at hc
      tauto
    rw [List.cons_append, scanField, if_neg hnc,
      ih (fun x hx => hf x (List.mem_cons_of_mem c hx))]

theorem scanQuoted_through (f tail : List Char) (htail : tail.head? ≠ some '"') :
    scanQuoted (doubleQuotes f ++ '"' :: tail) = (f, tail) := by
  induction f with
  | nil =>
    rw [show doubleQuotes [] = [] from rfl, List.nil_append, scanQuoted, if_pos rfl]
    rcases tail with _ | ⟨c, tl⟩
    · rfl
    · have hc : c ≠ '"' := by simpa using htail
      rw [scanQuotedEnd, if_neg hc]
  | cons c f ih =>
    by_cases hc : c = '"'
    · subst hc
      rw [show doubleQuotes ('"' :: f) = '"' :: '"' :: doubleQuotes f from by
        rw [doubleQuotes, if_pos rfl]]
      rw [List.cons_append, List.cons_append, scanQuoted, if_pos rfl,
        scanQuotedEnd, if_pos rfl]
      simp only
      rw [ih]
    · rw [show doubleQuotes (c :: f) = c :: doubleQuotes f from by
        rw [doubleQuotes, if_neg hc]]
      rw [List.cons_append, scanQuoted, if_neg hc]
      simp only
      rw [ih]

theorem parseFieldStep_escape (f tail : List Char)
    (ht : tail.head? = some ',' ∨ tail.head? = some '\n') :
    parseFieldStep (escapeField f ++ tail) = (f, tail) := by
  have htq : tail.head? ≠ some '"' := by rcases ht with h | h <;> simp [h]
  unfold escapeField
  split
  · rw [List.cons_append, List.append_assoc]
    rw [show (['"'] : List Char) ++ tail = '"' :: tail from rfl]
    rw [show parseFieldStep ('"' :: (doubleQuotes f ++ '"' :: tail)) =
      scanQuoted (doubleQuotes f ++ '"' :: tail) from by
        unfold parseFieldStep
        rw [if_pos (show ('"' :: (doubleQuotes f ++ '"' :: tail)).head? = some '"' from rfl)]
        rfl]
    exact scanQuoted_through f tail htq
  · next hany =>
    have hall : ∀ c ∈ f, isSpecialC c = false := by
      intro c hc
      rcases hb : isSpecialC c
      · rfl
      · exact absurd (List.any_eq_true.2 ⟨c, hc, hb⟩) hany
    have hhead : (f ++ tail).head? ≠ some '"' := by
      rcases f with _ | ⟨c, f'⟩
      · simpa using htq
      · rw [List.cons_append]
        have := hall c (List.mem_cons_self c f')
        intro hcq
        simp only [List.head?_cons, Option.some.injEq] at hcq
        rw [hcq] at this
        exact absurd this (by decide)
    unfold parseFieldStep
    rw [if_neg hhead]
    exact scanField_stops f tail hall (by tauto)

theorem serializeRecord_cons (f : List Char) (fs : List (List Char)) (hfs : fs ≠ []) :
    serializeRecord (f :: fs) = escapeField f ++ ',' :: serializeRecord fs := by
  rcases fs with _ | ⟨g, gs⟩
  · exact absurd rfl hfs
  · rfl

theorem length_serializeRecord (fs : List (List Char)) :
    fs.length ≤ (serializeRecord fs).length + 1 := by
  induction fs with
  | nil => simp
  | cons f fs ih =>
    rcases fs with _ | ⟨g, gs⟩
    · simp
    · rw [serializeRecord_cons f (g :: gs) (by simp)]
      simp only [List.length_append, List.length_cons] at *
      omega

theorem parseRecordAux_rt (fs : List (List Char)) :
    ∀ (fuel : Nat) (rest : List Char), fs ≠ [] → fs.length ≤ fuel →
    parseRecordAux fuel (serializeRecord fs ++ '\n' :: rest) = (fs, rest) := by
  induction fs with
  | nil => intro fuel rest h _; exact absurd rfl h
  | cons f fs ih =>
    intro fuel rest _ hlen
    obtain ⟨fuel, rfl⟩ : ∃ k, fuel = k + 1 := by
      rcases fuel with _ | k
      · simp at hlen
      · exact ⟨k, rfl⟩
    rcases fs with _ | ⟨g, gs⟩
    · rw [show serializeRecord [f] = escapeField f from rfl]
      rw [parseRecordAux]
      rw [parseFieldStep_escape f ('\n' :: rest) (Or.inr rfl)]
      dsimp only [List.head?_cons, List.tail_cons]
      rw [if_neg (by decide), if_pos rfl]
    · rw [serializeRecord_cons f (g :: gs) (by simp), List.append_assoc,
        List.cons_append]
      rw [parseRecordAux]
      rw [parseFieldStep_escape f (',' :: (serializeRecord (g :: gs) ++ '\n' :: rest))
        (Or.inl rfl)]
      dsimp only [List.head?_cons, List.tail_cons]
      rw [if_pos rfl]
      rw [ih fuel rest (by simp) (by simp at hlen ⊢; omega)]

theorem joinRecords_length (rs : List (List (List Char))) :
    rs.length ≤ (joinRecords rs).length := by
  induction rs with
  | nil => simp [joinRecords]
  | cons r rs ih =>
    rw [joinRecords]
    simp only [List.length_append, List.length_cons]
    omega

theorem parseRecordsAux_rt (rs : List (List (List Char))) :
    ∀ fuel : Nat, (∀ r ∈ rs, r ≠ []) → rs.length ≤ fuel →
    parseRecordsAux fuel (joinRecords rs) = rs := by
  induction rs with
  | nil =>
    intro fuel _ _
    rcases fuel with _ | k <;> rfl
  | cons r rs ih =>
    intro fuel hne hlen
    obtain ⟨fuel, rfl⟩ : ∃ k, fuel = k + 1 := by
      rcases fuel with _ | k
      · simp at hlen
      · exact ⟨k, rfl⟩
    rw [joinRecords, parseRecordsAux]
    rw [if_neg (by simp)]
    simp only
    have hfuel : r.length ≤ (serializeRecord r ++ '\n' :: joinRecords rs).length := by
      have := length_serializeRecord r
      simp only [List.length_append, List.length_cons]
      omega
    rw [parseRecordAux_rt r _ _ (hne r (List.mem_cons_self r rs)) hfuel]
    simp only
    rw [ih fuel (fun x hx => hne x (List.mem_cons_of_mem r hx)) (by simp at hlen ⊢; omega)]

theorem rowRecord_ne_nil (r : Row) : rowRecord r ≠ [] := by
  simp [rowRecord]

theorem parseRecords_payload (rows : List Row) :
    parseRecordsAux (payloadChars rows).length (payloadChars rows) =
      headerRecord :: rows.map rowRecord := by
  unfold payloadChars
  apply parseRecordsAux_rt
  · intro r hr
    rcases List.mem_cons.1 hr with rfl | h
    · simp [headerRecord]
    · obtain ⟨x, _, rfl⟩ := List.mem_map.1 h
      exact rowRecord_ne_nil x
  · have := joinRecords_length (headerRecord :: rows.map rowRecord)
    simpa using this

/-! Derivation and re-ingestion lemmas. -/

theorem ratTrunc_intCast (n : Int) : ratTrunc (n : Rat) = n := by
  unfold ratTrunc
  split
  · exact Int.floor_intCast n
  · exact Int.ceil_intCast n

theorem add_finish_column_store (store : List StoreRow) :
    add_finish_column (store.map rawOfStore) = .ok (deriveStore store) := by
  induction store with
  | nil => rfl
  | cons s st ih =>
    rw [List.map_cons, add_finish_column]
    rw [show astypeInt (rawOfStore s).duration = .ok s.duration from by
      simp [rawOfStore, astypeInt, ratTrunc_intCast]]
    rw [ih]
    rfl

theorem recover_rowRecord (s : StoreRow) :
    recoverStoreRow (rowRecord (deriveRow s)) = some s := by
  unfold rowRecord deriveRow recoverStoreRow
  simp only [parseDate_renderDate, parseInt_renderInt]

theorem recoverRows_map (store : List StoreRow) :
    recoverRows ((deriveStore store).map rowRecord) = some store := by
  induction store with
  | nil => rfl
  | cons s st ih =>
    unfold deriveStore at ih ⊢
    rw [List.map_cons, List.map_cons, recoverRows, recover_rowRecord, ih]

/-! Statistics lemmas. -/

theorem minDfold_spec (ds : List Date) : ∀ a : Date,
    minDfold a ds ∈ a :: ds ∧ ∀ x ∈ a :: ds, dateLE (minDfold a ds) x := by
  induction ds with
  | nil =>
    intro a
    refine ⟨List.mem_singleton_self a, ?_⟩
    intro x hx
    rw [List.mem_singleton.1 hx]
    exact dateLE_refl a
  | cons d ds ih =>
    intro a
    rw [minDfold]
    obtain ⟨ihm, ihb⟩ := ih (if dateLE a d then a else d)
    by_cases had : dateLE a d
    · rw [if_pos had] at ihm ihb ⊢
      constructor
      · rcases List.mem_cons.1 ihm with h | h
        · exact List.mem_cons.2 (Or.inl h)
        · exact List.mem_cons.2 (Or.inr (List.mem_cons_of_mem d h))
      · intro x hx
        rcases List.mem_cons.1 hx with rfl | hx'
        · exact ihb _ (List.mem_cons_self _ _)
        · rcases List.mem_cons.1 hx' with rfl | hx''
          · exact dateLE_trans (ihb _ (List.mem_cons_self _ _)) had
          · exact ihb x (List.mem_cons_of_mem _ hx'')
    · have hda : dateLE d a := (dateLE_total a d).resolve_left had
      rw [if_neg had] at ihm ihb ⊢
      constructor
      · rcases List.mem_cons.1 ihm with h | h
        · exact List.mem_cons.2 (Or.inr (List.mem_cons.2 (Or.inl h)))
        · exact List.mem_cons.2 (Or.inr (List.mem_cons_of_mem d h))
      · intro x hx
        rcases List.mem_cons.1 hx with rfl | hx'
        · exact dateLE_trans (ihb _ (List.mem_cons_self _ _)) hda
        · rcases List.mem_cons.1 hx' with rfl | hx''
          · exact ihb _ (List.mem_cons_self _ _)
          · exact ihb x (List.mem_cons_of_mem _ hx'')

theorem maxDfold_spec (ds : List Date) : ∀ a : Date,
    maxDfold a ds ∈ a :: ds ∧ ∀ x ∈ a :: ds, dateLE x (maxDfold a ds) := by
  induction ds with
  | nil =>
    intro a
    refine ⟨List.mem_singleton_self a, ?_⟩
    intro x hx
    rw [List.mem_singleton.1 hx]
    exact dateLE_refl a
  | cons d ds ih =>
    intro a
    rw [maxDfold]
    obtain ⟨ihm, ihb⟩ := ih (if dateLE d a then a else d)
    by_cases had : dateLE d a
    · rw [if_pos had] at ihm ihb ⊢
      constructor
      · rcases List.mem_cons.1 ihm with h | h
        · exact List.mem_cons.2 (Or.inl h)
        · exact List.mem_cons.2 (Or.inr (List.mem_cons_of_mem d h))
      · intro x hx
        rcases List.mem_cons.1 hx with rfl | hx'
        · exact ihb _ (List.mem_cons_self _ _)
        · rcases List.mem_cons.1 hx' with rfl | hx''
          · exact dateLE_trans had (ihb _ (List.mem_cons_self _ _))
          · exact ihb x (List.mem_cons_of_mem _ hx'')
    · have hda : dateLE a d := (dateLE_total d a).resolve_left had
      rw [if_neg had] at ihm ihb ⊢
      constructor
      · rcases List.mem_cons.1 ihm with h | h
        · exact List.mem_cons.2 (Or.inr (List.mem_cons.2 (Or.inl h)))
        · exact List.mem_cons.2 (Or.inr (List.mem_cons_of_mem d h))
      · intro x hx
        rcases List.mem_cons.1 hx with rfl | hx'
        · exact dateLE_trans hda (ihb _ (List.mem_cons_self _ _))
        · rcases List.mem_cons.1 hx' with rfl | hx''
          · exact ihb _ (List.mem_cons_self _ _)
          · exact ihb x (List.mem_cons_of_mem _ hx'')

theorem nunique_append_mem {l : List String} {a : String} (h : a ∈ l) :
    nunique (l ++ [a]) = nunique l := by
  unfold nunique
  rw [List.toFinset_append]
  congr 1
  rw [show ([a] : List String).toFinset = {a} from rfl, Finset.union_comm,
    ← Finset.insert_eq]
  exact Finset.insert_eq_self.2 (List.mem_toFinset.2 h)

theorem nunique_append_new {l : List String} {a : String} (h : a ∉ l) :
    nunique (l ++ [a]) = nunique l + 1 := by
  unfold nunique
  rw [List.toFinset_append]
  rw [show ([a] : List String).toFinset = {a} from rfl, Finset.union_comm,
    ← Finset.insert_eq]
  exact Finset.card_insert_of_not_mem (fun hm => h (List.mem_toFinset.1 hm))

theorem deriveStore_resources (store : List StoreRow) :
    (deriveStore store).map Row.resource = store.map StoreRow.resource := by
  unfold deriveStore
  rw [List.map_map]
  rfl

theorem add_finish_column_tasks (df : List RawRow) :
    ∀ out, add_finish_column df = .ok out → out.map Row.task = df.map RawRow.task := by
  induction df with
  | nil =>
    intro out h
    rw [show add_finish_column [] = .ok [] from rfl] at h
    injection h with h1
    rw [← h1]
    rfl
  | cons r rs ih =>
    intro out h
    rw [add_finish_column] at h
    rcases hd : astypeInt r.duration with e | d
    · rw [hd] at h; simp at h
    · rw [hd] at h
      rcases hr : add_finish_column rs with e | out'
      · rw [hr] at h; simp at h
      · rw [hr] at h
        simp only [Except.ok.injEq] at h
        rw [← h]
        simp only [List.map_cons]
        rw [ih out' hr]

/-! Heap frame lemmas for the export operations. -/

theorem add_finish_column_imp_frame (h : Heap) (r : Nat) (i : Nat) (hi : i < h.length) :
    (add_finish_column_imp h r).1[i]? = h[i]? := by
  have hne : h.length ≠ i := by omega
  have happ : (h ++ [readT h r])[i]? = h[i]? := by
    rw [List.getElem?_append, if_pos hi]
  unfold add_finish_column_imp writeT
  dsimp only
  rcases hcol : astypeCol (readT ((h ++ [readT h r]).set h.length
      (toDatetimeCol (readT (h ++ [readT h r]) h.length))) h.length) with e | ds
  · dsimp only
    rw [List.getElem?_set_ne hne, happ]
  · dsimp only
    rw [List.getElem?_set_ne hne, List.getElem?_set_ne hne,
      List.getElem?_set_ne hne, happ]

/-! Format-shape lemmas for the export. -/

theorem daysInMonth_le31 (y m : Nat) : daysInMonth y m ≤ 31 := by
  unfold daysInMonth
  split
  · split <;> omega
  · split <;> omega

theorem renderNatAux_length (fuel : Nat) : ∀ n k : Nat, n < 10 ^ k →
    (renderNatAux fuel n).length ≤ k := by
  induction fuel with
  | zero => intro n k _; simp [renderNatAux]
  | succ fuel ih =>
    intro n k hn
    by_cases h0 : n = 0
    · subst h0; simp [renderNatAux]
    · rw [renderNatAux, if_neg h0]
      rcases k with _ | k'
      · interval_cases n
        exact absurd rfl h0
      · have hdiv : n / 10 < 10 ^ k' := by
          rw [Nat.div_lt_iff_lt_mul (by omega)]
          calc n < 10 ^ (k' + 1) := hn
          _ = 10 ^ k' * 10 := by rw [pow_succ]
        have := ih (n / 10) k' hdiv
        simp only [List.length_append, List.length_cons, List.length_nil]
        omega

theorem renderNat_length_le (n k : Nat) (hn : n < 10 ^ k) (hk : 1 ≤ k) :
    (renderNat n).length ≤ k := by
  unfold renderNat
  split
  · simpa using hk
  · exact renderNatAux_length n n k hn

theorem padTo_length (k : Nat) (cs : List Char) (h : cs.length ≤ k) :
    (padTo k cs).length = k := by
  unfold padTo
  simp only [List.length_append, List.length_replicate]
  omega

/-! Truncation characterization. -/

theorem ratTrunc_nonneg_spec (q : Rat) (hq : 0 ≤ q) :
    (ratTrunc q : Rat) ≤ q ∧ q < (ratTrunc q : Rat) + 1 := by
  unfold ratTrunc
  rw [if_pos hq]
  exact ⟨Int.floor_le q, Int.lt_floor_add_one q⟩

theorem ratTrunc_neg_spec (q : Rat) (hq : q < 0) :
    q ≤ (ratTrunc q : Rat) ∧ (ratTrunc q : Rat) < q + 1 := by
  unfold ratTrunc
  rw [if_neg (by exact fun h => absurd hq (not_lt.2 h))]
  exact ⟨Int.le_ceil q, Int.ceil_lt_add_one q⟩

/-! The claims. -/

/-- C1: for every row of the table produced by the derive step
(`add_finish_column`), the computed `Finish` value equals that row's `Start`
date plus its `Duration` in days, by exact integer day arithmetic
(`addDays`). -/
theorem c1_finish_eq_start_plus_duration (df : List RawRow) (out : List Row)
    (h : add_finish_column df = .ok out) :
    ∀ r ∈ out, r.finish = addDays r.start r.duration := by
  induction df generalizing out with
  | nil =>
    rw [show add_finish_column [] = .ok [] from rfl] at h
    injection h with h1
    rw [← h1]
    intro r hr
    simp at hr
  | cons rr rs ih =>
    rw [add_finish_column] at h
    rcases hd : astypeInt rr.duration with e | d
    · rw [hd] at h; simp at h
    · rw [hd] at h
      rcases hrec : add_finish_column rs with e | out'
      · rw [hrec] at h; simp at h
      · rw [hrec] at h
        simp only [Except.ok.injEq] at h
        rw [← h]
        intro r hr
        rcases List.mem_cons.1 hr with rfl | hmem
        · rfl
        · exact ih out' hrec r hmem

/-- C1 witness: the derive step on a concrete one-row table. -/
theorem c1_witness : demoRow.finish = addDays demoRow.start demoRow.duration :=
  c1_finish_eq_start_plus_duration demoRaw [demoRow] rfl demoRow (by simp)

/-- C2 counterexample: on the concrete derived scenario table, the export
header line is `Task,Start,Resource,Duration,Finish` — the stored column
order with `Finish` appended — which differs from the claimed
`Task,Start,Duration,Resource,Finish`. -/
theorem c2_header_counterexample :
    (∃ rest, payloadChars (deriveStore scenarioStore) =
      "Task,Start,Resource,Duration,Finish".data ++ '\n' :: rest) ∧
    "Task,Start,Resource,Duration,Finish".data ≠
      "Task,Start,Duration,Resource,Finish".data :=
  ⟨⟨joinRecords ((deriveStore scenarioStore).map rowRecord), rfl⟩, by decide⟩

/-- C2 (amended): for every table of derived rows the export bytes begin with
the UTF-8 byte-order marker `EF BB BF`, the header columns are
`Task, Start, Resource, Duration, Finish` (the stored column order — the
seed order — with `Finish` appended), each row's record renders `Start` and
`Finish` with `renderDate`, and `renderDate` of a valid date with a
four-digit year has the `YYYY-MM-DD` shape. -/
theorem c2_export_format (rows : List Row) :
    (convert_df_to_csv rows).take 3 = [239, 187, 191] ∧
    (∃ rest, payloadChars rows =
      "Task,Start,Resource,Duration,Finish".data ++ '\n' :: rest) ∧
    (∀ r ∈ rows, rowRecord r = [r.task.data, renderDate r.start, r.resource.data,
      renderIntChars r.duration, renderDate r.finish]) ∧
    (∀ dt : Date, ValidDate dt → dt.y ≤ 9999 →
      ∃ a b c, renderDate dt = a ++ '-' :: (b ++ '-' :: c) ∧
        a.length = 4 ∧ b.length = 2 ∧ c.length = 2 ∧
        ∀ ch ∈ a ++ b ++ c, ch.isDigit = true) := by
  refine ⟨?_, ⟨joinRecords (rows.map rowRecord), rfl⟩, fun r _ => rfl, ?_⟩
  · rw [show convert_df_to_csv rows =
      [239, 187, 191] ++ utf8Encode (payloadChars rows) from rfl]
    rfl
  · intro dt hv hy
    obtain ⟨hm1, hm2, hd1, hd2⟩ := hv
    refine ⟨padTo 4 (renderNat dt.y), padTo 2 (renderNat dt.m), padTo 2 (renderNat dt.d),
      rfl, ?_, ?_, ?_, ?_⟩
    · exact padTo_length 4 _ (renderNat_length_le dt.y 4 (by omega) (by omega))
    · exact padTo_length 2 _ (renderNat_length_le dt.m 2 (by omega) (by omega))
    · have := daysInMonth_le31 dt.y dt.m
      exact padTo_length 2 _ (renderNat_length_le dt.d 2 (by omega) (by omega))
    · intro ch hch
      rcases List.mem_append.1 hch with hab | hc
      · rcases List.mem_append.1 hab with ha | hb
        · exact padTo_digits _ _ (renderNat_digits dt.y) ch ha
        · exact padTo_digits _ _ (renderNat_digits dt.m) ch hb
      · exact padTo_digits _ _ (renderNat_digits dt.d) ch hc

/-- C2 witness: the amended export-format statement instantiated on the
concrete scenario table and the date 2024-01-01. -/
theorem c2_export_format_witness :
    (convert_df_to_csv (deriveStore scenarioStore)).take 3 = [239, 187, 191] ∧
    (∃ a b c, renderDate ⟨2024, 1, 1⟩ = a ++ '-' :: (b ++ '-' :: c) ∧
      a.length = 4 ∧ b.length = 2 ∧ c.length = 2 ∧
      ∀ ch ∈ a ++ b ++ c, ch.isDigit = true) :=
  ⟨(c2_export_format (deriveStore scenarioStore)).1,
   (c2_export_format (deriveStore scenarioStore)).2.2.2 ⟨2024, 1, 1⟩ (by decide) (by decide)⟩

/-- C3: for every non-empty derived table, `calculate_stats` returns the row
count, the sum of the durations, the number of distinct resources, and an
attained lower bound of the starts and an attained upper bound of the
finishes; on the two-row scenario it returns
`(2, 15, 2, 2024-01-01, 2024-01-16)`. -/
theorem c3_stats_characterization (df : List Row) (hne : df ≠ []) :
    (∃ m M, calculate_stats df =
        (df.length, (df.map Row.duration).sum, nunique (df.map Row.resource),
          some m, some M) ∧
      m ∈ df.map Row.start ∧ (∀ x ∈ df.map Row.start, dateLE m x) ∧
      M ∈ df.map Row.finish ∧ (∀ x ∈ df.map Row.finish, dateLE x M)) ∧
    calculate_stats (deriveStore scenarioStore) =
      (2, 15, 2, some ⟨2024, 1, 1⟩, some ⟨2024, 1, 16⟩) := by
  constructor
  · obtain ⟨r, rs, rfl⟩ : ∃ r rs, df = r :: rs := by
      rcases df with _ | ⟨r, rs⟩
      · exact absurd rfl hne
      · exact ⟨r, rs, rfl⟩
    obtain ⟨hmin_mem, hmin_le⟩ := minDfold_spec (rs.map Row.start) r.start
    obtain ⟨hmax_mem, hmax_le⟩ := maxDfold_spec (rs.map Row.finish) r.finish
    exact ⟨minDfold r.start (rs.map Row.start), maxDfold r.finish (rs.map Row.finish),
      rfl, hmin_mem, hmin_le, hmax_mem, hmax_le⟩
  · decide

/-- C3 witness: the statistics on the concrete scenario table. -/
theorem c3_stats_witness :
    calculate_stats (deriveStore scenarioStore) =
      (2, 15, 2, some ⟨2024, 1, 1⟩, some ⟨2024, 1, 16⟩) :=
  (c3_stats_characterization (deriveStore scenarioStore) (by decide)).2

/-- C4: for every store table, the derive step succeeds and parsing the
exported CSV text back yields exactly the original `Task`, `Start`,
`Duration`, `Resource` values (`Finish` is dropped, not re-ingested). -/
theorem c4_csv_round_trip (store : List StoreRow) :
    ∃ out, add_finish_column (store.map rawOfStore) = .ok out ∧
      parseCsvRows (csvChars out) = some store := by
  refine ⟨deriveStore store, add_finish_column_store store, ?_⟩
  unfold parseCsvRows
  rw [show stripBOM (csvChars (deriveStore store)) = payloadChars (deriveStore store)
    from rfl]
  rw [parseRecords_payload (deriveStore store)]
  exact recoverRows_map store

/-- C5: the derive step preserves row order: it maps the task-name column
unchanged, so the nth output row has the nth input row's task name. -/
theorem c5_derive_preserves_order (df : List RawRow) (out : List Row)
    (h : add_finish_column df = .ok out) :
    out.map Row.task = df.map RawRow.task ∧
    ∀ n : Nat, (out[n]?).map Row.task = (df[n]?).map RawRow.task := by
  have hm := add_finish_column_tasks df out h
  refine ⟨hm, fun n => ?_⟩
  have h2 := congrArg (fun l => l[n]?) hm
  simpa [List.getElem?_map] using h2

/-- C5 witness: order preservation on a concrete one-row table. -/
theorem c5_witness :
    ([demoRow].map Row.task = demoRaw.map RawRow.task) ∧
    ∀ n : Nat, (([demoRow])[n]?).map Row.task = ((demoRaw)[n]?).map RawRow.task :=
  c5_derive_preserves_order demoRaw [demoRow] rfl

/-- C6: on the empty table the statistics are zero counts and zero total
duration, and the earliest start and latest finish are the `none` sentinel
(modelling pandas `NaT` on an empty column). -/
theorem c6_empty_stats : calculate_stats [] = (0, 0, 0, none, none) := rfl

/-- C7: for every store whose rows have duration at least 1 (as the edit
surface enforces), every derived row's finish is strictly after its start,
and hence the invariant `finish ≥ start` holds. -/
theorem c7_finish_after_start (store : List StoreRow) (out : List Row)
    (h : add_finish_column (store.map rawOfStore) = .ok out)
    (hdur : ∀ r ∈ store, 1 ≤ r.duration) :
    ∀ r ∈ out, dateLT r.start r.finish ∧ dateLE r.start r.finish := by
  rw [add_finish_column_store store] at h
  injection h with h1
  rw [← h1]
  intro r hr
  obtain ⟨s, hs, rfl⟩ := List.mem_map.1 hr
  have h1d := hdur s hs
  have hlt : dateLT (deriveRow s).start (deriveRow s).finish :=
    dateLT_addDays s.start s.duration h1d
  exact ⟨hlt, dateLE_of_lt hlt⟩

/-- C7 witness: a two-day task starting 2024-02-28 finishes strictly later
(on 2024-03-01, across the leap day). -/
theorem c7_witness :
    dateLT (deriveRow demoStoreRow).start (deriveRow demoStoreRow).finish ∧
    dateLE (deriveRow demoStoreRow).start (deriveRow demoStoreRow).finish :=
  c7_finish_after_start [demoStoreRow] (deriveStore [demoStoreRow]) rfl
    (by decide) (deriveRow demoStoreRow) (by simp [deriveStore])

/-- C8: appending a row whose resource already occurs leaves the
distinct-resource statistic unchanged; appending a row with a fresh resource
increments it by exactly one. -/
theorem c8_distinct_resource_append (store : List StoreRow) (r : StoreRow) :
    (r.resource ∈ store.map StoreRow.resource →
      (calculate_stats (deriveStore (store ++ [r]))).2.2.1 =
        (calculate_stats (deriveStore store)).2.2.1) ∧
    (r.resource ∉ store.map StoreRow.resource →
      (calculate_stats (deriveStore (store ++ [r]))).2.2.1 =
        (calculate_stats (deriveStore store)).2.2.1 + 1) := by
  have hmap : (deriveStore (store ++ [r])).map Row.resource =
      store.map StoreRow.resource ++ [r.resource] := by
    rw [deriveStore_resources]
    simp
  constructor
  · intro hmem
    show nunique ((deriveStore (store ++ [r])).map Row.resource) =
      nunique ((deriveStore store).map Row.resource)
    rw [hmap, deriveStore_resources, nunique_append_mem hmem]
  · intro hmem
    show nunique ((deriveStore (store ++ [r])).map Row.resource) =
      nunique ((deriveStore store).map Row.resource) + 1
    rw [hmap, deriveStore_resources, nunique_append_new hmem]

/-- C8 witness: appending a row with the fresh resource `C` to the scenario
store increments the distinct-resource count. -/
theorem c8_witness :
    (calculate_stats (deriveStore (scenarioStore ++ [demoNewRow]))).2.2.1 =
      (calculate_stats (deriveStore scenarioStore)).2.2.1 + 1 :=
  (c8_distinct_resource_append scenarioStore demoNewRow).2 (by decide)

/-- C9: the export operations leave the session Row Store unchanged:
`add_finish_column` mutates only its fresh copy (so every pre-existing heap
cell is untouched, whether the `astype` coercion succeeds or raises), and
the two converters do not write to the heap at all. -/
theorem c9_export_frame (h : Heap) (r : Nat) (i : Nat) (hi : i < h.length) :
    (add_finish_column_imp h r).1[i]? = h[i]? ∧
    (convert_df_to_csv_imp h r).1 = h ∧
    (convert_df_to_excel_imp h r).1 = h :=
  ⟨add_finish_column_imp_frame h r i hi, rfl, rfl⟩

/-- C9 witness: the frame property on a concrete one-cell heap. -/
theorem c9_witness :
    (add_finish_column_imp demoHeap 0).1[0]? = demoHeap[0]? ∧
    (convert_df_to_csv_imp demoHeap 0).1 = demoHeap ∧
    (convert_df_to_excel_imp demoHeap 0).1 = demoHeap :=
  c9_export_frame demoHeap 0 0 (by decide)

/-- C10: the derive step coerces `Duration` cells with `astype(int)`: a
numeric cell whose truncation fits in int64 (the regime where the numpy cast
is defined) is truncated toward zero (floor for nonnegative, ceiling for
negative values) and `Finish` is computed from the truncated value; a string
cell Python's `int()` converts yields that integer; a cell not convertible
to an integer makes the step raise instead of producing a row. -/
theorem c10_astype_truncation (t : String) (st : Date) (res : String) :
    (∀ q : Rat, -(2 ^ 63) ≤ ratTrunc q → ratTrunc q < 2 ^ 63 →
      add_finish_column [⟨t, st, .num q, res⟩] =
        .ok [⟨t, st, ratTrunc q, res, addDays st (ratTrunc q)⟩]) ∧
    (∀ q : Rat, 0 ≤ q → (ratTrunc q : Rat) ≤ q ∧ q < (ratTrunc q : Rat) + 1) ∧
    (∀ q : Rat, q < 0 → q ≤ (ratTrunc q : Rat) ∧ (ratTrunc q : Rat) < q + 1) ∧
    (∀ (s : String) (n : Int), strToInt? s = some n →
      add_finish_column [⟨t, st, .str s, res⟩] = .ok [⟨t, st, n, res, addDays st n⟩]) ∧
    (∀ s : String, strToInt? s = none →
      add_finish_column [⟨t, st, .str s, res⟩] = .error "invalid literal for int") := by
  refine ⟨fun q _ _ => rfl, fun q hq => ratTrunc_nonneg_spec q hq,
    fun q hq => ratTrunc_neg_spec q hq, fun s n hs => ?_, fun s hs => ?_⟩
  · rw [add_finish_column]
    rw [show astypeInt (RawRow.duration ⟨t, st, .str s, res⟩) = .ok n from by
      show (match strToInt? s with
        | some n => Except.ok n
        | none => (Except.error "invalid literal for int" : Except String Int)) =
        Except.ok n
      rw [hs]]
    rfl
  · rw [add_finish_column]
    rw [show astypeInt (RawRow.duration ⟨t, st, .str s, res⟩) =
      .error "invalid literal for int" from by
        show (match strToInt? s with
          | some n => Except.ok n
          | none => (Except.error "invalid literal for int" : Except String Int)) =
          Except.error "invalid literal for int"
        rw [hs]]

/-- C10 witness: `5.5` truncates to `5`, `-5.5` truncates to `-5`; the
strings `"+5"`, `" 5 "` and `"5_0"` (all accepted by Python's `int()`)
convert to `5`, `5` and `50`; and the string `"abc"` makes the derive step
raise. -/
theorem c10_witness :
    add_finish_column [⟨"T", ⟨2024, 1, 1⟩, .num (mkRat 11 2), "A"⟩] =
      .ok [⟨"T", ⟨2024, 1, 1⟩, ratTrunc (mkRat 11 2), "A",
        addDays ⟨2024, 1, 1⟩ (ratTrunc (mkRat 11 2))⟩] ∧
    ((ratTrunc (mkRat 11 2) : Rat) ≤ mkRat 11 2 ∧
      mkRat 11 2 < (ratTrunc (mkRat 11 2) : Rat) + 1) ∧
    (mkRat (-11) 2 ≤ (ratTrunc (mkRat (-11) 2) : Rat) ∧
      (ratTrunc (mkRat (-11) 2) : Rat) < mkRat (-11) 2 + 1) ∧
    add_finish_column [⟨"T", ⟨2024, 1, 1⟩, .str "+5", "A"⟩] =
      .ok [⟨"T", ⟨2024, 1, 1⟩, 5, "A", addDays ⟨2024, 1, 1⟩ 5⟩] ∧
    add_finish_column [⟨"T", ⟨2024, 1, 1⟩, .str " 5 ", "A"⟩] =
      .ok [⟨"T", ⟨2024, 1, 1⟩, 5, "A", addDays ⟨2024, 1, 1⟩ 5⟩] ∧
    add_finish_column [⟨"T", ⟨2024, 1, 1⟩, .str "5_0", "A"⟩] =
      .ok [⟨"T", ⟨2024, 1, 1⟩, 50, "A", addDays ⟨2024, 1, 1⟩ 50⟩] ∧
    add_finish_column [⟨"T", ⟨2024, 1, 1⟩, .str "abc", "A"⟩] =
      .error "invalid literal for int" :=
  ⟨(c10_astype_truncation "T" ⟨2024, 1, 1⟩ "A").1 (mkRat 11 2) (by decide) (by decide),
   (c10_astype_truncation "T" ⟨2024, 1, 1⟩ "A").2.1 (mkRat 11 2) (by decide),
   (c10_astype_truncation "T" ⟨2024, 1, 1⟩ "A").2.2.1 (mkRat (-11) 2) (by decide),
   (c10_astype_truncation "T" ⟨2024, 1, 1⟩ "A").2.2.2.1 "+5" 5 (by decide),
   (c10_astype_truncation "T" ⟨2024, 1, 1⟩ "A").2.2.2.1 " 5 " 5 (by decide),
   (c10_astype_truncation "T" ⟨2024, 1, 1⟩ "A").2.2.2.1 "5_0" 50 (by decide),
   (c10_astype_truncation "T" ⟨2024, 1, 1⟩ "A").2.2.2.2 "abc" (by decide)⟩

end GanttApp
